import Mathlib

/-!
Verification of the core of `sigrokdecode/__init__.py` (pysigrok).

The Python source is shallowly embedded: pure functions become Lean
functions, instance state becomes explicit record values, Python dicts
become association lists with insertion-order update semantics, and
fallible code returns `Option` (where `none` models a raised exception).
-/

/-- `OutputType` enum (source lines 30-35). -/
inductive OutputType
  | ANN
  | PYTHON
  | BINARY
  | LOGIC
  | META
deriving DecidableEq, Repr

/-- Key of one entry of a `wait` condition dict: either the string key
"skip" or an integer channel index (source: `conds` dicts, lines 151-166
and 291-310). -/
inductive CKey
  | skip
  | ch (n : Nat)
deriving DecidableEq, Repr

/-- Value of one entry of a condition dict: an integer (for "skip") or a
trigger-symbol string such as "l", "h", "r", "f", "e", "s". -/
inductive CVal
  | num (n : Int)
  | sym (s : String)
deriving DecidableEq, Repr

/-- A condition: a Python dict, embedded as its (key, value) entries in
insertion order.  Keys of an actual Python dict are pairwise distinct. -/
abbrev Cond := List (CKey × CVal)

/-- Insert into a Python dict embedded as an association list: an existing
key keeps its position and gets the new value, a new key is appended at
the end (Python 3.7+ insertion-order semantics). -/
def dictInsert {α β : Type} [DecidableEq α] : List (α × β) → α → β → List (α × β)
  | [], k, v => [(k, v)]
  | (k', v') :: rest, k, v =>
    if k' = k then (k, v) :: rest else (k', v') :: dictInsert rest k v

/-- Dict lookup (`d[k]` / `k in d`): first entry with the given key. -/
def dictGet? {α β : Type} [DecidableEq α] : List (α × β) → α → Option β
  | [], _ => none
  | (k', v) :: rest, k => if k' = k then some v else dictGet? rest k

/-- `cond_matches(cond, last_sample, current_sample)` (source lines
291-310).  Iterates the entries of the condition dict; an entry with key
"skip" returns `cond["skip"] == 0` immediately (keys of a dict are
distinct, so that value is the value of the entry at hand); a channel
entry fails the whole condition if its trigger symbol's rule is violated
on the masked bit of the two samples. -/
def cond_matches : Cond → Nat → Nat → Bool
  | [], _, _ => true
  | (CKey.skip, v) :: _, _, _ => v = CVal.num 0
  | (CKey.ch channel, state) :: rest, last_sample, current_sample =>
    let mask := 1 <<< channel
    let last_value := last_sample &&& mask
    let value := current_sample &&& mask
    if (state = CVal.sym "l" ∧ value ≠ 0)
        ∨ (state = CVal.sym "h" ∧ value = 0)
        ∨ (state = CVal.sym "r" ∧ ¬(last_value = 0 ∧ value ≠ 0))
        ∨ (state = CVal.sym "f" ∧ ¬(last_value ≠ 0 ∧ value = 0))
        ∨ (state = CVal.sym "e" ∧ last_value = value)
        ∨ (state = CVal.sym "s" ∧ last_value ≠ value) then
      false
    else
      cond_matches rest last_sample current_sample

/-- The bit mask `n &&& (1 <<< c)` is `2 ^ c` or `0` according to bit `c`
of `n`. -/
theorem and_mask_eq (n c : Nat) :
    n &&& (1 <<< c) = (if n.testBit c then 2 ^ c else 0) := by
  rw [Nat.shiftLeft_eq, Nat.one_mul, Nat.and_two_pow]
  cases h : n.testBit c <;> simp [h]

/-- C5: for every (last, cur) bit pair at a channel, the rising-edge
symbol "r" matches iff last = 0 and cur = 1, the falling-edge symbol "f"
matches iff last = 1 and cur = 0, the two never match simultaneously, the
any-edge symbol "e" matches exactly when "r" or "f" does, and the stable
symbol "s" matches exactly when "e" does not. -/
theorem cond_matches_edge_symbols (c last_sample current_sample : Nat) :
    cond_matches [(CKey.ch c, CVal.sym "r")] last_sample current_sample
      = (!last_sample.testBit c && current_sample.testBit c)
    ∧ cond_matches [(CKey.ch c, CVal.sym "f")] last_sample current_sample
      = (last_sample.testBit c && !current_sample.testBit c)
    ∧ ¬(cond_matches [(CKey.ch c, CVal.sym "r")] last_sample current_sample = true
        ∧ cond_matches [(CKey.ch c, CVal.sym "f")] last_sample current_sample = true)
    ∧ cond_matches [(CKey.ch c, CVal.sym "e")] last_sample current_sample
      = (cond_matches [(CKey.ch c, CVal.sym "r")] last_sample current_sample
          || cond_matches [(CKey.ch c, CVal.sym "f")] last_sample current_sample)
    ∧ cond_matches [(CKey.ch c, CVal.sym "s")] last_sample current_sample
      = !(cond_matches [(CKey.ch c, CVal.sym "e")] last_sample current_sample) := by
  have hpow : (2 : Nat) ^ c ≠ 0 := by positivity
  cases h1 : last_sample.testBit c <;> cases h2 : current_sample.testBit c <;>
    simp [cond_matches, and_mask_eq, h1, h2, hpow, Ne.symm hpow]

/-- Static (class-level) declarations of a decoder definition.  Channel
rows are embedded by their "id" string, the only field `set_channelnum`
consults; annotation and binary rows are (name, description) pairs.
`channels` and `optional_channels` are `Option`s: `none` models the
attribute being `None` (the class default for `optional_channels`,
source line 98) or missing. -/
structure DecoderClass where
  channels : Option (List String)
  optional_channels : Option (List String)
  annotations : Option (List (String × String))
  binary : Option (List (String × String))
deriving DecidableEq, Repr

/-- Mutable per-run decoder state touched by `set_channelnum` and `wait`:
the channel remap dict and the one-to-one flag. -/
structure DecoderState where
  decoder_channel_to_data_channel : List (Nat × Nat)
  one_to_one : Bool
deriving DecidableEq, Repr

/-- State a freshly constructed decoder instance reads: the attributes
resolve to the class attributes `decoder_channel_to_data_channel = {}`
and `one_to_one = False` (source lines 105-106; the class-level dict is
empty at class-creation time). -/
def freshDecoder : DecoderState :=
  { decoder_channel_to_data_channel := [], one_to_one := false }

/-- The guard `hasattr(self, "decoder_channel_to_data_channel")` in
`set_channelnum` (source line 201).  It is always true: the attribute
exists as a class attribute with value `{}` (source line 105), and class
attributes are visible to `hasattr` on every instance, so the branch
re-initialising the table and setting `one_to_one = True` (lines 202-203)
is unreachable. -/
def hasattr_decoder_channel_to_data_channel : Bool := true

/-- `Decoder.set_channelnum(channelname, channelnum)` (source lines
200-218): walk `channels + optional_channels` (each `None` read as the
empty list, lines 207-212); at the first row whose id equals
`channelname`, bind that ordinal position to `channelnum` and AND the
one-to-one flag with `position == channelnum`; no matching row leaves the
state unchanged. -/
def Decoder.set_channelnum (cls : DecoderClass) (st : DecoderState)
    (channelname : String) (channelnum : Nat) : DecoderState :=
  let st :=
    if hasattr_decoder_channel_to_data_channel then st
    else { decoder_channel_to_data_channel := [], one_to_one := true }
  let optional_channels := cls.optional_channels.getD []
  let channels := cls.channels.getD []
  match (channels ++ optional_channels).findIdx? (fun c => c == channelname) with
  | none => st
  | some i =>
    { decoder_channel_to_data_channel :=
        dictInsert st.decoder_channel_to_data_channel i channelnum,
      one_to_one := st.one_to_one && (i == channelnum) }

/-- `Decoder.has_channel(decoder_channel)` (source lines 220-221). -/
def Decoder.has_channel (st : DecoderState) (decoder_channel : Nat) : Bool :=
  (dictGet? st.decoder_channel_to_data_channel decoder_channel).isSome

/-- Class used for the C2 failing input: two declared channels
"scl", "sda" and no optional channels. -/
def c2Class : DecoderClass :=
  { channels := some ["scl", "sda"], optional_channels := some [],
    annotations := none, binary := none }

/-- C2 (code bug): on a freshly constructed decoder, binding the first
declared channel (ordinal position 0) to physical index 0 leaves
`one_to_one` false, not true as the claim states: the lazy initialisation
that would set the flag never runs because the attribute exists at class
level, and `one_to_one` starts as the class default `False`, which the
AND in line 217 can never turn true. -/
theorem set_channelnum_first_bind_not_one_to_one :
    (Decoder.set_channelnum c2Class freshDecoder "scl" 0).one_to_one = false := by
  rfl

/-- Predicate: `channelname` matches no declared or optional channel id of
the class (with `None` attributes read as empty lists, as the source
does). -/
def unknownChannel (cls : DecoderClass) (channelname : String) : Prop :=
  channelname ∉ cls.channels.getD [] ++ cls.optional_channels.getD []

instance (cls : DecoderClass) (s : String) : Decidable (unknownChannel cls s) := by
  unfold unknownChannel; infer_instance

/-- Auxiliary: `findIdx?` (from any start index) finds nothing when no
element satisfies the predicate. -/
theorem findIdx?_eq_none_of_not_mem {l : List String} {s : String}
    (h : s ∉ l) : ∀ i, List.findIdx? (fun c => c == s) l i = none := by
  induction l with
  | nil => intro i; rfl
  | cons a rest ih =>
    intro i
    have ha : (a == s) = false := by
      simp only [beq_eq_false_iff_ne, ne_eq]
      intro hc; exact h (hc ▸ List.mem_cons_self a rest)
    have hrest : s ∉ rest := fun hm => h (List.mem_cons_of_mem a hm)
    simp [List.findIdx?, ha, ih hrest]

/-- C10: calling `set_channelnum` with a name that equals no declared or
optional channel id is a silent no-op: the state (remap table and
one-to-one flag) is returned unchanged and no error path exists. -/
theorem set_channelnum_unknown_name_noop (cls : DecoderClass)
    (st : DecoderState) (channelname : String) (channelnum : Nat)
    (h : unknownChannel cls channelname) :
    Decoder.set_channelnum cls st channelname channelnum = st := by
  have h1 : channelname ∉ cls.channels.getD [] ++ cls.optional_channels.getD [] := h
  simp [Decoder.set_channelnum, findIdx?_eq_none_of_not_mem h1,
    hasattr_decoder_channel_to_data_channel]

/-- C10 witness: the unknown name "zz" leaves a concrete state untouched. -/
theorem set_channelnum_unknown_name_noop_witness :
    unknownChannel c2Class "zz"
    ∧ Decoder.set_channelnum c2Class freshDecoder "zz" 3 = freshDecoder :=
  ⟨by decide, set_channelnum_unknown_name_noop c2Class freshDecoder "zz" 3 (by decide)⟩

/-- Image of one condition entry under the remap table (the rewriting
`data_cond[self.decoder_channel_to_data_channel[k]] = cond[k]` of source
line 165, with "skip" passed through, line 163).  An unbound channel key
is sent to index 0 by `getD`; `translateCond` itself models the unbound
case as a KeyError instead, so the default is never relied upon. -/
def mapCondEntry (table : List (Nat × Nat)) : CKey × CVal → CKey × CVal
  | (CKey.skip, v) => (CKey.skip, v)
  | (CKey.ch c, v) => (CKey.ch ((dictGet? table c).getD 0), v)

/-- Rewrite one condition dict (source lines 160-166): entries are taken
in insertion order and inserted into a fresh dict, translating channel
keys through the remap table; a missing table entry is a KeyError,
modelled as `none`. -/
def translateCondGo (table : List (Nat × Nat)) (acc : Cond) : Cond → Option Cond
  | [] => some acc
  | (CKey.skip, v) :: rest => translateCondGo table (dictInsert acc CKey.skip v) rest
  | (CKey.ch c, v) :: rest =>
    match dictGet? table c with
    | none => none
    | some p => translateCondGo table (dictInsert acc (CKey.ch p) v) rest

/-- Rewrite of a whole condition dict, starting from the fresh dict
`data_cond = {}` of source line 160. -/
def translateCond (table : List (Nat × Nat)) (cond : Cond) : Option Cond :=
  translateCondGo table [] cond

/-- The `for cond in conds` loop of source lines 158-166, building
`data_conds` in order. -/
def translateConds (table : List (Nat × Nat)) : List Cond → Option (List Cond)
  | [] => some []
  | c :: rest =>
    match translateCond table c with
    | none => none
    | some dc =>
      match translateConds table rest with
      | none => none
      | some rest' => some (dc :: rest')

/-- The condition sequence handed to `self.input.wait` (source lines
155-166): forwarded unmodified when `one_to_one` holds, otherwise each
condition is rewritten through the remap table. -/
def waitConds (st : DecoderState) (conds : List Cond) : Option (List Cond) :=
  if st.one_to_one then some conds
  else translateConds st.decoder_channel_to_data_channel conds

/-- The `for decoder_channel in self.decoder_channel_to_data_channel`
loop of source lines 172-174: copy `raw_data[data_channel]` into slot
`decoder_channel` of the result vector.  An out-of-range slot index or
raw index is an IndexError, modelled as `none`. -/
def setSlots (raw : List Nat) : List (Option Nat) → List (Nat × Nat) → Option (List (Option Nat))
  | data, [] => some data
  | data, (dc, pc) :: rest =>
    if dc < data.length then
      match raw.get? pc with
      | none => none
      | some v => setSlots raw (data.set dc (some v)) rest
    else none

/-- Number of result slots, `len(type(self).channels) +
len(getattr(type(self), "optional_channels", []))` (source lines
169-171).  `None` (or a missing `channels`) makes `len` raise, modelled
as `none`; `optional_channels` defaults to `None` at class level, so the
`getattr` default is only reached when even the base class attribute is
absent. -/
def waitSlotCount (cls : DecoderClass) : Option Nat :=
  match cls.channels, cls.optional_channels with
  | some cs, some os => some (cs.length + os.length)
  | _, _ => none

/-- Result vector construction of source lines 169-176: a vector of
`None` (unmapped) slots, one per declared plus optional channel, then one
copy per remap-table entry. -/
def waitResult (cls : DecoderClass) (st : DecoderState) (raw : List Nat) :
    Option (List (Option Nat)) :=
  match waitSlotCount cls with
  | none => none
  | some n => setSlots raw (List.replicate n none) st.decoder_channel_to_data_channel

/-- `Decoder.wait(conds)` (source lines 151-176) on a decoder whose
stream source is attached; `source` is the attached source's `wait`,
returning the physical sample vector.  The returned pair is the condition
sequence actually forwarded to the source together with the logical
result vector (the source function returns only the latter; the forwarded
sequence is exposed so that theorems can speak about it). -/
def Decoder.wait (cls : DecoderClass) (st : DecoderState) (conds : List Cond)
    (source : List Cond → List Nat) : Option (List Cond × List (Option Nat)) :=
  match waitConds st conds with
  | none => none
  | some data_conds =>
    match waitResult cls st (source data_conds) with
    | none => none
    | some data => some (data_conds, data)

/-- A condition key with a binding in the remap table ("skip" needs
none). -/
def boundKey (table : List (Nat × Nat)) : CKey → Bool
  | CKey.skip => true
  | CKey.ch c => (dictGet? table c).isSome

/-- Inserting a key absent from a dict appends the entry at the end. -/
theorem dictInsert_not_mem {α β : Type} [DecidableEq α] {d : List (α × β)} {k : α} (v : β)
    (h : k ∉ d.map Prod.fst) : dictInsert d k v = d ++ [(k, v)] := by
  induction d with
  | nil => rfl
  | cons p rest ih =>
    obtain ⟨k', v'⟩ := p
    simp only [List.map_cons, List.mem_cons, not_or] at h
    have hne : ¬k' = k := fun hc => h.1 hc.symm
    simp [dictInsert, hne, ih h.2]

/-- A dict lookup fails exactly when the key is absent. -/
theorem dictGet?_eq_none_iff {α β : Type} [DecidableEq α] (d : List (α × β)) (k : α) :
    dictGet? d k = none ↔ k ∉ d.map Prod.fst := by
  induction d with
  | nil => simp [dictGet?]
  | cons p rest ih =>
    obtain ⟨k', v'⟩ := p
    by_cases hk : k' = k
    · subst hk; simp [dictGet?]
    · have hk2 : ¬k = k' := fun hc => hk hc.symm
      simp [dictGet?, hk, hk2, ih]

/-- A successful dict lookup returns an entry of the dict. -/
theorem dictGet?_mem {α β : Type} [DecidableEq α] {d : List (α × β)} {k : α} {v : β}
    (h : dictGet? d k = some v) : (k, v) ∈ d := by
  induction d with
  | nil => simp [dictGet?] at h
  | cons p rest ih =>
    obtain ⟨k', v'⟩ := p
    by_cases hk : k' = k
    · subst hk
      simp [dictGet?] at h
      simp [h]
    · simp [dictGet?, hk] at h
      exact List.mem_cons_of_mem _ (ih h)

/-- One slot-copying pass preserves the vector length. -/
theorem setSlots_length {raw : List Nat} :
    ∀ {tbl : List (Nat × Nat)} {data out : List (Option Nat)},
      setSlots raw data tbl = some out → out.length = data.length := by
  intro tbl
  induction tbl with
  | nil => intro data out h; simp [setSlots] at h; simp [h]
  | cons p rest ih =>
    intro data out h
    obtain ⟨dc, pc⟩ := p
    simp only [setSlots] at h
    by_cases hdc : dc < data.length
    · rw [if_pos hdc] at h
      cases hv : raw.get? pc with
      | none => rw [hv] at h; cases h
      | some v =>
        rw [hv] at h
        have := ih h
        simpa [List.length_set] using this
    · rw [if_neg hdc] at h; cases h

/-- Slot copying succeeds when every table entry is in range. -/
theorem setSlots_isSome {raw : List Nat} :
    ∀ {tbl : List (Nat × Nat)} {data : List (Option Nat)},
      (∀ p ∈ tbl, p.1 < data.length ∧ p.2 < raw.length) →
      ∃ out, setSlots raw data tbl = some out := by
  intro tbl
  induction tbl with
  | nil => intro data _; exact ⟨data, rfl⟩
  | cons p rest ih =>
    intro data h
    obtain ⟨dc, pc⟩ := p
    have hp := h (dc, pc) (List.mem_cons_self _ _)
    have hraw : ∃ v, raw.get? pc = some v := by
      cases hv : raw.get? pc with
      | none => exact absurd (List.get?_eq_none.mp hv) (by omega)
      | some v => exact ⟨v, rfl⟩
    obtain ⟨v, hv⟩ := hraw
    have hrest : ∀ q ∈ rest, q.1 < (data.set dc (some v)).length ∧ q.2 < raw.length := by
      intro q hq
      have := h q (List.mem_cons_of_mem _ hq)
      simpa [List.length_set] using this
    obtain ⟨out, hout⟩ := ih hrest
    refine ⟨out, ?_⟩
    simp only [setSlots, if_pos hp.1, hv]
    exact hout

/-- Slots whose index is not a key of the table are left untouched. -/
theorem setSlots_get_not_mem {raw : List Nat} :
    ∀ {tbl : List (Nat × Nat)} {data out : List (Option Nat)},
      setSlots raw data tbl = some out →
      ∀ L, L ∉ tbl.map Prod.fst → out.get? L = data.get? L := by
  intro tbl
  induction tbl with
  | nil => intro data out h L _; simp [setSlots] at h; simp [h]
  | cons p rest ih =>
    intro data out h L hL
    obtain ⟨dc, pc⟩ := p
    simp only [List.map_cons, List.mem_cons, not_or] at hL
    simp only [setSlots] at h
    by_cases hdc : dc < data.length
    · rw [if_pos hdc] at h
      cases hv : raw.get? pc with
      | none => rw [hv] at h; cases h
      | some v =>
        rw [hv] at h
        rw [ih h L hL.2]
        exact List.get?_set_ne _ _ (fun hc => hL.1 hc.symm)
    · rw [if_neg hdc] at h; cases h

/-- With pairwise distinct keys, the slot at a bound index receives the
raw value the table maps it to. -/
theorem setSlots_get_mem {raw : List Nat} :
    ∀ {tbl : List (Nat × Nat)} {data out : List (Option Nat)},
      (tbl.map Prod.fst).Nodup →
      setSlots raw data tbl = some out →
      ∀ dc pc, (dc, pc) ∈ tbl →
        ∃ v, raw.get? pc = some v ∧ out.get? dc = some (some v) := by
  intro tbl
  induction tbl with
  | nil => intro data out _ _ dc pc hm; cases hm
  | cons p rest ih =>
    intro data out hnd h dc pc hm
    obtain ⟨dc', pc'⟩ := p
    simp only [List.map_cons, List.nodup_cons] at hnd
    simp only [setSlots] at h
    by_cases hdc : dc' < data.length
    · rw [if_pos hdc] at h
      cases hv : raw.get? pc' with
      | none => rw [hv] at h; cases h
      | some v =>
        rw [hv] at h
        rcases List.mem_cons.mp hm with heq | hmem
        · obtain ⟨h1, h2⟩ := Prod.mk.injEq .. ▸ heq
          subst h1; subst h2
          refine ⟨v, hv, ?_⟩
          have hnot : dc ∉ rest.map Prod.fst := hnd.1
          rw [setSlots_get_not_mem h dc hnot]
          exact List.get?_set_eq_of_lt _ hdc
        · exact ih hnd.2 h dc pc hmem
    · rw [if_neg hdc] at h; cases h

/-- `get?` on a replicated list. -/
theorem get?_replicate {α : Type} (a : α) :
    ∀ (n i : Nat), i < n → (List.replicate n a).get? i = some a := by
  intro n
  induction n with
  | zero => intro i hi; omega
  | succ m ih =>
    intro i hi
    cases i with
    | zero => rfl
    | succ j => exact ih j (by omega)

/-- `mapCondEntry` on a "skip" entry. -/
theorem mapCondEntry_skip (table : List (Nat × Nat)) (v : CVal) :
    mapCondEntry table (CKey.skip, v) = (CKey.skip, v) := rfl

/-- `mapCondEntry` on a channel entry. -/
theorem mapCondEntry_ch (table : List (Nat × Nat)) (c : Nat) (v : CVal) :
    mapCondEntry table (CKey.ch c, v) = (CKey.ch ((dictGet? table c).getD 0), v) := rfl

/-- Rewriting a condition whose channel keys are all bound and whose
translated keys are pairwise distinct produces exactly the entrywise
image: each channel key is replaced by its physical index, "skip"
entries pass through unchanged, and insertion order is preserved. -/
theorem translateCondGo_eq (table : List (Nat × Nat)) :
    ∀ (entries acc : Cond),
      (∀ e ∈ entries, boundKey table e.1 = true) →
      (∀ e ∈ entries, (mapCondEntry table e).1 ∉ acc.map Prod.fst) →
      ((entries.map fun e => (mapCondEntry table e).1).Nodup) →
      translateCondGo table acc entries = some (acc ++ entries.map (mapCondEntry table)) := by
  intro entries
  induction entries with
  | nil => intro acc _ _ _; simp [translateCondGo]
  | cons e rest ih =>
    intro acc hb hacc hnd
    obtain ⟨k, v⟩ := e
    simp only [List.map_cons, List.nodup_cons] at hnd
    have hheadacc := hacc (k, v) (List.mem_cons_self _ _)
    have hrest_hb : ∀ e ∈ rest, boundKey table e.1 = true :=
      fun e he => hb e (List.mem_cons_of_mem _ he)
    cases k with
    | skip =>
      have hskip : (mapCondEntry table (CKey.skip, v)).1 = CKey.skip := rfl
      rw [hskip] at hheadacc
      have hins : dictInsert acc CKey.skip v = acc ++ [(CKey.skip, v)] :=
        dictInsert_not_mem v hheadacc
      rw [hskip] at hnd
      have hacc' : ∀ e ∈ rest,
          (mapCondEntry table e).1 ∉ (acc ++ [(CKey.skip, v)]).map Prod.fst := by
        intro e he
        rw [List.map_append, List.mem_append]
        rintro (h1 | h2)
        · exact hacc e (List.mem_cons_of_mem _ he) h1
        · have h3 : (mapCondEntry table e).1 = CKey.skip := by simpa using h2
          have hm : CKey.skip ∈ rest.map (fun x => (mapCondEntry table x).1) := by
            rw [← h3]; exact List.mem_map_of_mem _ he
          exact hnd.1 hm
      rw [translateCondGo, hins, ih (acc ++ [(CKey.skip, v)]) hrest_hb hacc' hnd.2]
      rw [List.map_cons, mapCondEntry_skip]
      simp
    | ch c =>
      have hbk := hb (CKey.ch c, v) (List.mem_cons_self _ _)
      have hbk2 : (dictGet? table c).isSome = true := by simpa [boundKey] using hbk
      obtain ⟨p, hp⟩ := Option.isSome_iff_exists.mp hbk2
      have hmap : mapCondEntry table (CKey.ch c, v) = (CKey.ch p, v) := by
        rw [mapCondEntry_ch, hp]; rfl
      have hchfst : (mapCondEntry table (CKey.ch c, v)).1 = CKey.ch p := by rw [hmap]
      rw [hchfst] at hheadacc
      have hins : dictInsert acc (CKey.ch p) v = acc ++ [(CKey.ch p, v)] :=
        dictInsert_not_mem v hheadacc
      rw [hchfst] at hnd
      have hacc' : ∀ e ∈ rest,
          (mapCondEntry table e).1 ∉ (acc ++ [(CKey.ch p, v)]).map Prod.fst := by
        intro e he
        rw [List.map_append, List.mem_append]
        rintro (h1 | h2)
        · exact hacc e (List.mem_cons_of_mem _ he) h1
        · have h3 : (mapCondEntry table e).1 = CKey.ch p := by simpa using h2
          have hm : CKey.ch p ∈ rest.map (fun x => (mapCondEntry table x).1) := by
            rw [← h3]; exact List.mem_map_of_mem _ he
          exact hnd.1 hm
      simp only [translateCondGo, hp]
      rw [hins, ih (acc ++ [(CKey.ch p, v)]) hrest_hb hacc' hnd.2]
      rw [List.map_cons, hmap]
      simp

/-- Whole-condition version of `translateCondGo_eq`, starting from the
fresh dict. -/
theorem translateCond_eq (table : List (Nat × Nat)) (cond : Cond)
    (hb : ∀ e ∈ cond, boundKey table e.1 = true)
    (hk : (cond.map fun e => (mapCondEntry table e).1).Nodup) :
    translateCond table cond = some (cond.map (mapCondEntry table)) := by
  have := translateCondGo_eq table cond [] hb (by intro e _; simp) hk
  simpa [translateCond] using this

/-- The `for cond in conds` loop maps `translateCond` over the list. -/
theorem translateConds_eq (table : List (Nat × Nat)) (conds : List Cond)
    (hb : ∀ cond ∈ conds, ∀ e ∈ cond, boundKey table e.1 = true)
    (hk : ∀ cond ∈ conds, ((cond.map fun e => (mapCondEntry table e).1).Nodup)) :
    translateConds table conds = some (conds.map (fun cond => cond.map (mapCondEntry table))) := by
  induction conds with
  | nil => rfl
  | cons c rest ih =>
    have hc := translateCond_eq table c (hb c (List.mem_cons_self _ _)) (hk c (List.mem_cons_self _ _))
    have hrest := ih (fun cond hm => hb cond (List.mem_cons_of_mem _ hm))
      (fun cond hm => hk cond (List.mem_cons_of_mem _ hm))
    simp [translateConds, hc, hrest]

/-- C3: a `wait` call on a decoder with an attached stream source, all of
whose condition channel keys are bound (and not aliased to a common
physical index) and whose remap table is within range.  If `one_to_one`
holds the condition sequence reaches the source unmodified; otherwise
every channel key is replaced by its physical index while "skip" entries
pass through.  The returned vector has one slot per declared plus
optional channel; every bound logical slot carries the source vector
entry at the remapped index, and every unbound slot is left unmapped
(`none`). -/
theorem Decoder.wait_spec (cls : DecoderClass) (st : DecoderState) (conds : List Cond)
    (source : List Cond → List Nat) (cs os : List String) (M : Nat)
    (hc : cls.channels = some cs) (ho : cls.optional_channels = some os)
    (hnodup : (st.decoder_channel_to_data_channel.map Prod.fst).Nodup)
    (hdc : ∀ p ∈ st.decoder_channel_to_data_channel, p.1 < cs.length + os.length)
    (hpc : ∀ p ∈ st.decoder_channel_to_data_channel, p.2 < M)
    (hM : ∀ l, (source l).length = M)
    (hbound : ∀ cond ∈ conds, ∀ e ∈ cond,
      boundKey st.decoder_channel_to_data_channel e.1 = true)
    (hkeys : ∀ cond ∈ conds,
      ((cond.map fun e => (mapCondEntry st.decoder_channel_to_data_channel e).1).Nodup)) :
    ∃ dcs data, Decoder.wait cls st conds source = some (dcs, data)
      ∧ (st.one_to_one = true → dcs = conds)
      ∧ (st.one_to_one = false →
          dcs = conds.map (fun cond => cond.map (mapCondEntry st.decoder_channel_to_data_channel)))
      ∧ data.length = cs.length + os.length
      ∧ (∀ L pc, dictGet? st.decoder_channel_to_data_channel L = some pc →
          ∃ v, (source dcs).get? pc = some v ∧ data.get? L = some (some v))
      ∧ (∀ L, L < cs.length + os.length →
          dictGet? st.decoder_channel_to_data_channel L = none →
          data.get? L = some none) := by
  have hwc : ∃ dcs, waitConds st conds = some dcs
      ∧ (st.one_to_one = true → dcs = conds)
      ∧ (st.one_to_one = false →
          dcs = conds.map (fun cond => cond.map (mapCondEntry st.decoder_channel_to_data_channel))) := by
    cases hone : st.one_to_one with
    | true =>
      refine ⟨conds, ?_, fun _ => rfl, fun hcon => absurd hcon (by decide)⟩
      simp [waitConds, hone]
    | false =>
      refine ⟨conds.map (fun cond => cond.map (mapCondEntry st.decoder_channel_to_data_channel)),
        ?_, fun hcon => absurd hcon (by decide), fun _ => rfl⟩
      simp [waitConds, hone, translateConds_eq _ conds hbound hkeys]
  obtain ⟨dcs, hdcs, hone_t, hone_f⟩ := hwc
  set N := cs.length + os.length with hN
  have hcount : waitSlotCount cls = some N := by simp [waitSlotCount, hc, ho]
  have hinit : (List.replicate N (none : Option Nat)).length = N := by simp
  have hsome : ∃ out, setSlots (source dcs) (List.replicate N (none : Option Nat))
      st.decoder_channel_to_data_channel = some out := by
    apply setSlots_isSome
    intro p hp
    refine ⟨by rw [hinit]; exact hdc p hp, ?_⟩
    rw [hM dcs]
    exact hpc p hp
  obtain ⟨out, hout⟩ := hsome
  refine ⟨dcs, out, ?_, hone_t, hone_f, ?_, ?_, ?_⟩
  · simp [Decoder.wait, hdcs, waitResult, hcount, hout]
  · rw [setSlots_length hout, hinit]
  · intro L pc hLpc
    exact setSlots_get_mem hnodup hout L pc (dictGet?_mem hLpc)
  · intro L hL hnone
    have hmem : L ∉ st.decoder_channel_to_data_channel.map Prod.fst :=
      (dictGet?_eq_none_iff _ _).mp hnone
    rw [setSlots_get_not_mem hout L hmem]
    exact get?_replicate none N L hL

/-- Concrete class for the C3 witness: declared channels "a", "b" and
optional channel "c" (the layout of the example in the spec). -/
def c3Class : DecoderClass :=
  { channels := some ["a", "b"], optional_channels := some ["c"],
    annotations := none, binary := none }

/-- Concrete remapped (non one-to-one) decoder state for the C3 witness:
logical 0 is bound to physical 2 and logical 2 to physical 0. -/
def c3State : DecoderState :=
  { decoder_channel_to_data_channel := [(0, 2), (2, 0)], one_to_one := false }

/-- Concrete conditions for the C3 witness: a rising edge on logical
channel 0, or a skip of 5 samples. -/
def c3Conds : List Cond :=
  [[(CKey.ch 0, CVal.sym "r")], [(CKey.skip, CVal.num 5)]]

/-- Concrete stream source for the C3 witness: always yields the physical
vector [10, 20, 30]. -/
def c3Source : List Cond → List Nat := fun _ => [10, 20, 30]

/-- C3 witness: the hypotheses of `Decoder.wait_spec` hold for a concrete
decoder, state, condition list and source, and the theorem's conclusion
follows for them. -/
theorem Decoder_wait_spec_witness :
    ((∀ cond ∈ c3Conds, ∀ e ∈ cond,
        boundKey c3State.decoder_channel_to_data_channel e.1 = true)
      ∧ (∀ p ∈ c3State.decoder_channel_to_data_channel, p.1 < 3))
    ∧ (∃ dcs data, Decoder.wait c3Class c3State c3Conds c3Source = some (dcs, data)
      ∧ (c3State.one_to_one = true → dcs = c3Conds)
      ∧ (c3State.one_to_one = false →
          dcs = c3Conds.map (fun cond => cond.map (mapCondEntry c3State.decoder_channel_to_data_channel)))
      ∧ data.length = 2 + 1
      ∧ (∀ L pc, dictGet? c3State.decoder_channel_to_data_channel L = some pc →
          ∃ v, (c3Source dcs).get? pc = some v ∧ data.get? L = some (some v))
      ∧ (∀ L, L < 2 + 1 →
          dictGet? c3State.decoder_channel_to_data_channel L = none →
          data.get? L = some none)) :=
  ⟨⟨by decide, by decide⟩,
    Decoder.wait_spec c3Class c3State c3Conds c3Source ["a", "b"] ["c"] 3
      rfl rfl (by decide) (by decide) (by decide) (fun _ => rfl) (by decide) (by decide)⟩

/-- Modelled from the spec: the external stream source
(`sigrokdecode.input.Input`, whose module is not part of the embedded
file) exposes a current absolute sample index and a matched-conditions
record.  Per the contract stated by `Decoder.samplenum` itself (return
type `Optional[int]`, docstring "must be called after wait() to be
non-None", source lines 223-233), both read as `None` until a `wait`
has succeeded, so they are embedded as `Option` fields. -/
structure InputState where
  samplenum : Option Nat
  matched : Option (List Bool)
deriving DecidableEq, Repr

/-- A stream source on which `wait` has never been called: both derived
attributes are still `None`. -/
def freshInput : InputState := { samplenum := none, matched := none }

/-- Result of evaluating a Python property: a returned value, or an
`AssertionError` raised by a failed `assert`. -/
inductive PyResult (α : Type)
  | ok (val : α)
  | assertionError
deriving DecidableEq, Repr

/-- `Decoder.samplenum` (source lines 223-227): assert that a stream
source is attached, then return its `samplenum` attribute. -/
def Decoder.samplenum (input : Option InputState) : PyResult (Option Nat) :=
  match input with
  | none => PyResult.assertionError
  | some i => PyResult.ok i.samplenum

/-- `Decoder.matched` (source lines 229-233): assert that a stream source
is attached, then return its `matched` attribute. -/
def Decoder.matched (input : Option InputState) : PyResult (Option (List Bool)) :=
  match input with
  | none => PyResult.assertionError
  | some i => PyResult.ok i.matched

/-- C4 counterexample: on a decoder whose stream source is attached but
on which `wait` has never been called, querying `samplenum` or `matched`
does not fail: both property reads return normally (with the value
`None`), so no PreconditionError (or any error) is raised, contrary to
the claim. -/
theorem samplenum_before_wait_returns_none :
    Decoder.samplenum (some freshInput) = PyResult.ok none
    ∧ Decoder.matched (some freshInput) = PyResult.ok none := by
  decide

/-- C4 (amended): with a stream source attached, `samplenum` and
`matched` always return the source's current values (which are the
absent value `None` before any `wait`); the only failure is an
`AssertionError` when no source is attached. -/
theorem samplenum_matched_behavior :
    (∀ i : InputState, Decoder.samplenum (some i) = PyResult.ok i.samplenum
      ∧ Decoder.matched (some i) = PyResult.ok i.matched)
    ∧ Decoder.samplenum none = PyResult.assertionError
    ∧ Decoder.matched none = PyResult.assertionError :=
  ⟨fun _ => ⟨rfl, rfl⟩, rfl, rfl⟩

/-- Payload handed to `put`: an annotation payload (class index plus text
variants), a binary payload (track index plus bytes), or a chained
(PYTHON) payload, kept abstract as a tag. -/
inductive PutData
  | ann (classIdx : Nat) (texts : List String)
  | bin (trackIdx : Nat) (payload : List Nat)
  | python (v : Nat)
deriving DecidableEq, Repr

/-- `data[0]` as used by `put` (source lines 190, 195): the leading index
of an annotation or binary payload; indexing a non-subscriptable chained
payload raises, modelled as `none`. -/
def PutData.idx0 : PutData → Option Nat
  | PutData.ann i _ => some i
  | PutData.bin i _ => some i
  | PutData.python _ => none

/-- The `for output_filter, cb in self.callbacks[output_id]` loop of
`put` (source lines 184-198).  Registrations are embedded as a list of
(filter, callback identifier) pairs; the returned list records, in
order, each invocation `cb(startsample, endsample, data)` performed.
`none` models a raised exception: the failed assert when a filtered
annotation (binary) event is emitted by a decoder declaring no
annotations (binary tracks), or an out-of-range / invalid `data[0]`. -/
def putLoop (cls : DecoderClass) (startsample endsample : Nat)
    (output_id : OutputType) (data : PutData) :
    List (Option String × Nat) → Option (List (Nat × Nat × Nat × PutData))
  | [] => some []
  | (output_filter, cb) :: rest =>
    match output_filter with
    | none =>
      (putLoop cls startsample endsample output_id data rest).map
        (fun invs => (cb, startsample, endsample, data) :: invs)
    | some f =>
      if output_id = OutputType.ANN then
        match cls.annotations with
        | none => none
        | some anns =>
          match data.idx0 with
          | none => none
          | some i =>
            match anns.get? i with
            | none => none
            | some annotation =>
              if annotation.1 ≠ f then
                putLoop cls startsample endsample output_id data rest
              else
                (putLoop cls startsample endsample output_id data rest).map
                  (fun invs => (cb, startsample, endsample, data) :: invs)
      else if output_id = OutputType.BINARY then
        match cls.binary with
        | none => none
        | some tracks =>
          match data.idx0 with
          | none => none
          | some i =>
            match tracks.get? i with
            | none => none
            | some track =>
              if track.1 ≠ f then
                putLoop cls startsample endsample output_id data rest
              else
                (putLoop cls startsample endsample output_id data rest).map
                  (fun invs => (cb, startsample, endsample, data) :: invs)
      else
        (putLoop cls startsample endsample output_id data rest).map
          (fun invs => (cb, startsample, endsample, data) :: invs)

/-- `Decoder.put(startsample, endsample, output_id, data)` (source lines
178-198): a kind with no registrations is a silent no-op; otherwise the
registrations for that kind are dispatched through `putLoop`.  The
registry is embedded per instance as an association list from output
kind to registration list; the Python `set` iteration order is not
specified, so the embedding fixes the list order (the properties proved
are order-independent). -/
def Decoder.put (cls : DecoderClass)
    (callbacks : List (OutputType × List (Option String × Nat)))
    (startsample endsample : Nat) (output_id : OutputType) (data : PutData) :
    Option (List (Nat × Nat × Nat × PutData)) :=
  match dictGet? callbacks output_id with
  | none => some []
  | some regs => putLoop cls startsample endsample output_id data regs

/-- C6: a `put` with kind annotation on a decoder declaring annotation
classes, with three registrations for that kind: a callback filtered on
the name declared for the payload class, a callback filtered on a
different name, and an unfiltered callback.  The matching callback is
invoked exactly once with the given (start, end, payload), the
differently filtered callback is never invoked, and the unfiltered
callback is invoked unconditionally. -/
theorem put_ann_filter_dispatch (cls : DecoderClass)
    (callbacks : List (OutputType × List (Option String × Nat)))
    (anns : List (String × String)) (ci : Nat) (texts : List String)
    (name desc : String) (f2 : String) (c1 c2 c3 : Nat) (s e : Nat)
    (hanns : cls.annotations = some anns)
    (hclass : anns.get? ci = some (name, desc))
    (hf2 : f2 ≠ name)
    (hregs : dictGet? callbacks OutputType.ANN
      = some [(some name, c1), (some f2, c2), (none, c3)]) :
    Decoder.put cls callbacks s e OutputType.ANN (PutData.ann ci texts)
      = some [(c1, s, e, PutData.ann ci texts), (c3, s, e, PutData.ann ci texts)] := by
  have hnf2 : name ≠ f2 := fun hc => hf2 hc.symm
  simp only [Decoder.put, hregs, putLoop, hanns, PutData.idx0, hclass]
  simp [hnf2]

/-- Concrete class for the C6 witness: annotation classes "warnings" and
"data". -/
def c6Class : DecoderClass :=
  { channels := some [], optional_channels := some [],
    annotations := some [("warnings", "Warnings"), ("data", "Data")],
    binary := none }

/-- Concrete registry for the C6 witness: three annotation callbacks,
filtered on "warnings", filtered on "data", and unfiltered. -/
def c6Callbacks : List (OutputType × List (Option String × Nat)) :=
  [(OutputType.ANN, [(some "warnings", 1), (some "data", 2), (none, 3)])]

/-- C6 witness: dispatching an annotation event of class 0 ("warnings")
through the concrete registry invokes callback 1 and the unfiltered
callback 3 exactly once each with the event, and never callback 2. -/
theorem put_ann_filter_dispatch_witness :
    c6Class.annotations = some [("warnings", "Warnings"), ("data", "Data")]
    ∧ ("data" : String) ≠ "warnings"
    ∧ Decoder.put c6Class c6Callbacks 5 9 OutputType.ANN (PutData.ann 0 ["boom"])
      = some [(1, 5, 9, PutData.ann 0 ["boom"]), (3, 5, 9, PutData.ann 0 ["boom"])] :=
  ⟨rfl, by decide,
    put_ann_filter_dispatch c6Class c6Callbacks
      [("warnings", "Warnings"), ("data", "Data")] 0 ["boom"] "warnings" "Warnings"
      "data" 1 2 3 5 9 rfl rfl (by decide) rfl⟩

/-- One entry of the `decoders` specification list handed to
`run_decoders`: only the pin mapping influences the recorded events (the
class and options of an entry are applied to the constructed instance
but carry no information the trace needs beyond the events themselves). -/
structure DecoderSpec where
  pin_mapping : List (String × Nat)
deriving DecidableEq, Repr

/-- Target of a registered callback in `run_decoders`: the sink's
`output` bound to a decoder (or to the input object), or a decoder's
`decode` entry point. -/
inductive CBTarget
  | sinkOutput (j : Nat)
  | sinkOutputInput
  | decode (j : Nat)
deriving DecidableEq, Repr

/-- Observable actions of one `run_decoders` execution, in program
order.  Decoders are identified by their position in the original
specification list (position 0 = lowest level, the decoder that is run
against the stream). -/
inductive Event
  | addCallbackInput (ot : OutputType) (filt : Option String) (t : CBTarget)
  | construct (j : Nat)
  | setOptions (j : Nat)
  | setChannelnum (j : Nat) (name : String) (num : Nat)
  | addCallback (j : Nat) (ot : OutputType) (filt : Option String) (t : CBTarget)
  | reset (j : Nat)
  | resetSink
  | metadata (j : Nat) (samplerate : Int)
  | metadataSink (samplerate : Int)
  | startSink
  | start (j : Nat)
  | runFirst (j : Nat)
  | runSink
  | stop (j : Nat)
  | stopSink
deriving DecidableEq, Repr

/-- Outcome of the driven decoder's `decode()` loop: plain return, the
stream-exhaustion signal `EOFError`, or any other exception. -/
inductive DecodeOutcome
  | normal
  | endOfStream
  | failure
deriving DecidableEq, Repr

/-- `Decoder.run(input_)` (source lines 271-277): attach the source and
call `decode()`, catching `EOFError` (and only it).  Returns whether an
exception propagates out of `run`. -/
def Decoder.run (outcome : DecodeOutcome) : Bool :=
  match outcome with
  | DecodeOutcome.failure => true
  | _ => false

/-- The `for decoder_info in reversed(decoders)` loop of `run_decoders`
(source lines 320-337), recorded as events.  The argument list is the
reversed specification list; `j` is the original position of the entry
at hand (the loop walks positions n-1, n-2, ..., 0); `ot`, `filt` and
`next` carry the loop variables `output_type`, `output_filter` and
`next_decoder`, which become `OUTPUT_PYTHON`, `None` and the decoder
just built after each iteration (lines 335-337). -/
def wireRev (j : Nat) (ot : OutputType) (filt : Option String) (next : Option Nat) :
    List DecoderSpec → List Event
  | [] => []
  | spec :: rest =>
    (Event.construct j ::
      Event.setOptions j ::
      spec.pin_mapping.map (fun p => Event.setChannelnum j p.1 p.2)
      ++ [Event.addCallback j ot filt (CBTarget.sinkOutput j)]
      ++ (match next with
          | some k => [Event.addCallback j ot filt (CBTarget.decode k)]
          | none => []))
    ++ wireRev (j - 1) OutputType.PYTHON none (some j) rest

/-- The wiring phase of `run_decoders` for a specification list in
original order, entered with the configured primary output kind and
filter and no next decoder. -/
def wireEvents (specs : List DecoderSpec) (ot : OutputType) (filt : Option String) :
    List Event :=
  wireRev (specs.length - 1) ot filt none specs.reverse

/-- `run_decoders(input_, output, decoders, output_type, output_filter)`
(source lines 313-358) as the list of events it performs, paired with
whether an exception propagates out of it.  `samplerate` is what
`input_.samplerate` reports and `outcome` is what the driven decode loop
does.  Order of phases, as in the source: input callback registration,
wiring loop, decoder resets then sink reset, conditional sample-rate
metadata to the first decoder (the sink when the list is empty), sink
start then decoder starts, the run of the first decoder (the sink when
the list is empty), and, unless an uncaught exception ends the run,
decoder stops then sink stop. -/
def run_decoders (specs : List DecoderSpec) (samplerate : Int) (ot : OutputType)
    (filt : Option String) (outcome : DecodeOutcome) : List Event × Bool :=
  let n := specs.length
  let pre :=
    Event.addCallbackInput OutputType.PYTHON none CBTarget.sinkOutputInput ::
      wireEvents specs ot filt
      ++ (List.range n).map Event.reset ++ [Event.resetSink]
      ++ (if samplerate > 0 then
            [if n = 0 then Event.metadataSink samplerate else Event.metadata 0 samplerate]
          else [])
      ++ Event.startSink :: (List.range n).map Event.start
      ++ [if n = 0 then Event.runSink else Event.runFirst 0]
  if Decoder.run outcome then
    (pre, true)
  else
    (pre ++ (List.range n).map Event.stop ++ [Event.stopSink], false)

/-- Events of the startup part of the lifecycle: resets, starts and the
run call. -/
def isLifecycle : Event → Bool
  | Event.reset _ => true
  | Event.resetSink => true
  | Event.startSink => true
  | Event.start _ => true
  | Event.runFirst _ => true
  | Event.runSink => true
  | _ => false

/-- Stop events. -/
def isStop : Event → Bool
  | Event.stop _ => true
  | Event.stopSink => true
  | _ => false

/-- Metadata deliveries and run calls. -/
def isMetaOrRun : Event → Bool
  | Event.metadata _ _ => true
  | Event.metadataSink _ => true
  | Event.runFirst _ => true
  | Event.runSink => true
  | _ => false

/-- Filtering a mapped list whose image never satisfies the predicate. -/
theorem filter_map_eq_nil {α : Type} {p : Event → Bool} {f : α → Event}
    (hf : ∀ a, p (f a) = false) (l : List α) : (l.map f).filter p = [] := by
  induction l with
  | nil => rfl
  | cons a rest ih => simp [hf, ih]

/-- Filtering a mapped list whose image always satisfies the predicate. -/
theorem filter_map_eq_self {α : Type} {p : Event → Bool} {f : α → Event}
    (hf : ∀ a, p (f a) = true) (l : List α) : (l.map f).filter p = l.map f := by
  induction l with
  | nil => rfl
  | cons a rest ih => simp [hf, ih]

/-- The wiring phase performs no lifecycle, stop or metadata events. -/
theorem wireRev_filter_eq_nil {p : Event → Bool}
    (hcon : ∀ j, p (Event.construct j) = false)
    (hopt : ∀ j, p (Event.setOptions j) = false)
    (hchan : ∀ j name num, p (Event.setChannelnum j name num) = false)
    (hcb : ∀ j ot filt t, p (Event.addCallback j ot filt t) = false) :
    ∀ (L : List DecoderSpec) (j : Nat) (ot : OutputType) (filt : Option String)
      (next : Option Nat), (wireRev j ot filt next L).filter p = [] := by
  intro L
  induction L with
  | nil => intro j ot filt next; rfl
  | cons s rest ih =>
    intro j ot filt next
    have hmapnil : (s.pin_mapping.map (fun q => Event.setChannelnum j q.1 q.2)).filter p = [] :=
      filter_map_eq_nil (fun q => hchan j q.1 q.2) s.pin_mapping
    cases next with
    | none => simp [wireRev, List.filter_append, List.filter_cons, hcon, hopt, hcb, hmapnil, ih]
    | some k => simp [wireRev, List.filter_append, List.filter_cons, hcon, hopt, hcb, hmapnil, ih]

/-- Chained part of the wiring loop: processing the reversed tail at
index `j` with next decoder `j + 1`, the entry `p` positions in (whose
original index is `j - p`) registers both its PYTHON callback to the
sink and its PYTHON callback to the decode entry of decoder `j - p + 1`. -/
theorem wireRev_chain_mem :
    ∀ (L : List DecoderSpec) (j p : Nat), p < L.length → p ≤ j →
      Event.addCallback (j - p) OutputType.PYTHON none (CBTarget.sinkOutput (j - p))
          ∈ wireRev j OutputType.PYTHON none (some (j + 1)) L
      ∧ Event.addCallback (j - p) OutputType.PYTHON none (CBTarget.decode (j - p + 1))
          ∈ wireRev j OutputType.PYTHON none (some (j + 1)) L := by
  intro L
  induction L with
  | nil => intro j p hp _; simp at hp
  | cons s rest ih =>
    intro j p hp hpj
    cases p with
    | zero =>
      constructor
      · simp [wireRev]
      · simp [wireRev]
    | succ q =>
      have hq : q < rest.length := by simpa using hp
      have hqj : q ≤ j - 1 := by omega
      have heq : j - 1 + 1 = j := by omega
      have h1 : j - 1 - q = j - (q + 1) := by omega
      have hmem := ih (j - 1) q hq hqj
      rw [heq, h1] at hmem
      constructor
      · simp only [wireRev]
        exact List.mem_append_right _ hmem.1
      · simp only [wireRev]
        exact List.mem_append_right _ hmem.2

/-- Any event of the wiring phase is an event of the whole run. -/
theorem mem_run_decoders_of_mem_wire {specs : List DecoderSpec} {samplerate : Int}
    {ot : OutputType} {filt : Option String} {outcome : DecodeOutcome} {e : Event}
    (h : e ∈ wireEvents specs ot filt) :
    e ∈ (run_decoders specs samplerate ot filt outcome).1 := by
  unfold run_decoders
  cases hr : Decoder.run outcome <;> simp [hr, h]

/-- C1 (amended): in the pipeline built by `run_decoders`, every
non-last decoder has its chained (PYTHON) output routed both to the next
decoder's decode entry point and to the sink's output operation, with no
filter; only the last decoder has the configured primary output kind and
filter routed to the sink. -/
theorem run_decoders_pipeline_wiring (specs : List DecoderSpec) (samplerate : Int)
    (ot : OutputType) (filt : Option String) (outcome : DecodeOutcome) :
    (∀ j, j + 1 < specs.length →
      Event.addCallback j OutputType.PYTHON none (CBTarget.decode (j + 1))
          ∈ (run_decoders specs samplerate ot filt outcome).1
        ∧ Event.addCallback j OutputType.PYTHON none (CBTarget.sinkOutput j)
          ∈ (run_decoders specs samplerate ot filt outcome).1)
    ∧ (0 < specs.length →
        Event.addCallback (specs.length - 1) ot filt
            (CBTarget.sinkOutput (specs.length - 1))
          ∈ (run_decoders specs samplerate ot filt outcome).1) := by
  constructor
  · intro j hj
    have hne : specs ≠ [] := by intro hc; rw [hc] at hj; simp at hj
    have hrevne : specs.reverse ≠ [] := by simpa using hne
    obtain ⟨s, L', hrev⟩ := List.exists_cons_of_ne_nil hrevne
    have hcg := congrArg List.length hrev
    simp at hcg
    have hlen : L'.length = specs.length - 1 := by omega
    have e2 : specs.length - 1 - 1 = specs.length - 2 := by omega
    have e3 : specs.length - 2 + 1 = specs.length - 1 := by omega
    have hchain := wireRev_chain_mem L' (specs.length - 2) (specs.length - 2 - j)
      (by omega) (by omega)
    have hj' : specs.length - 2 - (specs.length - 2 - j) = j := by omega
    rw [hj', e3] at hchain
    have hsub : ∀ x, x ∈ wireRev (specs.length - 2) OutputType.PYTHON none
        (some (specs.length - 1)) L' → x ∈ wireEvents specs ot filt := by
      intro x hx
      rw [wireEvents, hrev]
      simp only [wireRev]
      apply List.mem_append_right
      rw [e2]
      exact hx
    exact ⟨mem_run_decoders_of_mem_wire (hsub _ hchain.2),
      mem_run_decoders_of_mem_wire (hsub _ hchain.1)⟩
  · intro hpos
    have hne : specs ≠ [] := List.length_pos.mp hpos
    have hrevne : specs.reverse ≠ [] := by simpa using hne
    obtain ⟨s, L', hrev⟩ := List.exists_cons_of_ne_nil hrevne
    apply mem_run_decoders_of_mem_wire
    rw [wireEvents, hrev]
    simp [wireRev]

/-- Event predicate: a callback registered on decoder `j` for kind `ot`
(with any filter) whose target is the sink's output bound to decoder
`j`. -/
def isPrimarySinkCb (j : Nat) (ot : OutputType) : Event → Bool
  | Event.addCallback i ot' _ (CBTarget.sinkOutput k) =>
    decide (i = j) && decide (ot' = ot) && decide (k = j)
  | _ => false

/-- Two-decoder specification list used as the concrete pipeline for the
orchestrator claims. -/
def c1Specs : List DecoderSpec :=
  [{ pin_mapping := [("rx", 0)] }, { pin_mapping := [] }]

/-- C1 counterexample: building the two-decoder pipeline with primary
output kind ANN registers NO callback on the first (non-last) decoder
that routes its ANN output to the sink, contrary to the claim that every
decoder in the list has its configured primary output kind routed to the
sink; the first decoder's sink route is registered under PYTHON instead. -/
theorem run_decoders_first_decoder_no_primary_sink_route :
    ((run_decoders c1Specs 0 OutputType.ANN none DecodeOutcome.endOfStream).1.filter
      (isPrimarySinkCb 0 OutputType.ANN)) = []
    ∧ Event.addCallback 0 OutputType.PYTHON none (CBTarget.sinkOutput 0)
        ∈ (run_decoders c1Specs 0 OutputType.ANN none DecodeOutcome.endOfStream).1 := by
  decide

/-- C1 witness: in the concrete two-decoder pipeline, decoder 0 routes
PYTHON output to decoder 1's decode entry and to the sink, and decoder 1
(the last) routes the primary kind ANN to the sink. -/
theorem run_decoders_pipeline_wiring_witness :
    (0 + 1 < c1Specs.length)
    ∧ Event.addCallback 0 OutputType.PYTHON none (CBTarget.decode 1)
        ∈ (run_decoders c1Specs 0 OutputType.ANN none DecodeOutcome.endOfStream).1
    ∧ Event.addCallback 0 OutputType.PYTHON none (CBTarget.sinkOutput 0)
        ∈ (run_decoders c1Specs 0 OutputType.ANN none DecodeOutcome.endOfStream).1
    ∧ Event.addCallback 1 OutputType.ANN none (CBTarget.sinkOutput 1)
        ∈ (run_decoders c1Specs 0 OutputType.ANN none DecodeOutcome.endOfStream).1 :=
  ⟨by decide,
    ((run_decoders_pipeline_wiring c1Specs 0 OutputType.ANN none
        DecodeOutcome.endOfStream).1 0 (by decide)).1,
    ((run_decoders_pipeline_wiring c1Specs 0 OutputType.ANN none
        DecodeOutcome.endOfStream).1 0 (by decide)).2,
    (run_decoders_pipeline_wiring c1Specs 0 OutputType.ANN none
        DecodeOutcome.endOfStream).2 (by decide)⟩

/-- C7 (amended): in every `run_decoders` execution over a non-empty
specification list, the startup lifecycle is: `reset` on every decoder
in list order, then on the sink; then (after the optional metadata
delivery) `start` on the SINK first, followed by `start` on every
decoder in list order; and only then the first decoder's run loop
begins.  All resets complete before any start, and all starts complete
before the run. -/
theorem run_decoders_lifecycle_order (specs : List DecoderSpec) (samplerate : Int)
    (ot : OutputType) (filt : Option String) (outcome : DecodeOutcome)
    (h : 0 < specs.length) :
    (run_decoders specs samplerate ot filt outcome).1.filter isLifecycle
      = (List.range specs.length).map Event.reset ++ [Event.resetSink]
        ++ Event.startSink :: (List.range specs.length).map Event.start
        ++ [Event.runFirst 0] := by
  have hn : specs.length ≠ 0 := by omega
  have hwire : (wireEvents specs ot filt).filter isLifecycle = [] := by
    rw [wireEvents]
    exact wireRev_filter_eq_nil (fun _ => rfl) (fun _ => rfl) (fun _ _ _ => rfl)
      (fun _ _ _ _ => rfl) specs.reverse _ _ _ _
  have hresets : ((List.range specs.length).map Event.reset).filter isLifecycle
      = (List.range specs.length).map Event.reset :=
    filter_map_eq_self (fun _ => rfl) _
  have hstarts : ((List.range specs.length).map Event.start).filter isLifecycle
      = (List.range specs.length).map Event.start :=
    filter_map_eq_self (fun _ => rfl) _
  have hstops : ((List.range specs.length).map Event.stop).filter isLifecycle = [] :=
    filter_map_eq_nil (fun _ => rfl) _
  unfold run_decoders
  cases hr : Decoder.run outcome <;> by_cases hsr : samplerate > 0 <;>
    simp [hr, hsr, hn, List.filter_append, List.filter_cons, hwire, hresets, hstarts,
      hstops, isLifecycle]

/-- C7 counterexample: in the concrete two-decoder run, the sink's
`start` is performed strictly before decoder 0's `start`, contrary to
the claimed order (start on every decoder followed by the sink). -/
theorem run_decoders_sink_started_before_decoders :
    Event.startSink ∈ (run_decoders c1Specs 0 OutputType.ANN none DecodeOutcome.endOfStream).1
    ∧ Event.start 0 ∈ (run_decoders c1Specs 0 OutputType.ANN none DecodeOutcome.endOfStream).1
    ∧ (run_decoders c1Specs 0 OutputType.ANN none DecodeOutcome.endOfStream).1.indexOf
        Event.startSink
      < (run_decoders c1Specs 0 OutputType.ANN none DecodeOutcome.endOfStream).1.indexOf
        (Event.start 0) := by
  decide

/-- C7 witness: the amended lifecycle order instantiated on the concrete
two-decoder pipeline. -/
theorem run_decoders_lifecycle_order_witness :
    0 < c1Specs.length
    ∧ (run_decoders c1Specs 5 OutputType.ANN none DecodeOutcome.endOfStream).1.filter isLifecycle
      = (List.range 2).map Event.reset ++ [Event.resetSink]
        ++ Event.startSink :: (List.range 2).map Event.start ++ [Event.runFirst 0] :=
  ⟨by decide,
    run_decoders_lifecycle_order c1Specs 5 OutputType.ANN none DecodeOutcome.endOfStream
      (by decide)⟩

/-- C8: when the driven decode loop signals end-of-stream, `Decoder.run`
catches the signal, `run_decoders` finishes normally (no exception
propagates), and `stop` is invoked exactly once on every decoder, in
specification-list order, followed by exactly once on the sink. -/
theorem run_decoders_eof_normal_stop_order (specs : List DecoderSpec)
    (samplerate : Int) (ot : OutputType) (filt : Option String) :
    Decoder.run DecodeOutcome.endOfStream = false
    ∧ (run_decoders specs samplerate ot filt DecodeOutcome.endOfStream).2 = false
    ∧ (run_decoders specs samplerate ot filt DecodeOutcome.endOfStream).1.filter isStop
      = (List.range specs.length).map Event.stop ++ [Event.stopSink] := by
  have hwire : (wireEvents specs ot filt).filter isStop = [] := by
    rw [wireEvents]
    exact wireRev_filter_eq_nil (fun _ => rfl) (fun _ => rfl) (fun _ _ _ => rfl)
      (fun _ _ _ _ => rfl) specs.reverse _ _ _ _
  have hresets : ((List.range specs.length).map Event.reset).filter isStop = [] :=
    filter_map_eq_nil (fun _ => rfl) _
  have hstarts : ((List.range specs.length).map Event.start).filter isStop = [] :=
    filter_map_eq_nil (fun _ => rfl) _
  have hstops : ((List.range specs.length).map Event.stop).filter isStop
      = (List.range specs.length).map Event.stop :=
    filter_map_eq_self (fun _ => rfl) _
  refine ⟨rfl, ?_, ?_⟩
  · simp [run_decoders, Decoder.run]
  · unfold run_decoders
    by_cases hn0 : specs.length = 0 <;> by_cases hsr : samplerate > 0 <;>
      simp [Decoder.run, hn0, hsr, List.filter_append, List.filter_cons, hwire,
        hresets, hstarts, hstops, isStop]

/-- C9: over a non-empty specification list, the sample-rate metadata
event is delivered exactly once, to the first (lowest-level) decoder
only, and before its run loop begins, when the source reports a strictly
positive rate; and no metadata event at all is delivered when the
reported rate is zero. -/
theorem run_decoders_metadata_delivery (specs : List DecoderSpec)
    (samplerate : Int) (ot : OutputType) (filt : Option String)
    (outcome : DecodeOutcome) (h : 0 < specs.length) :
    (0 < samplerate →
      (run_decoders specs samplerate ot filt outcome).1.filter isMetaOrRun
        = [Event.metadata 0 samplerate, Event.runFirst 0])
    ∧ (samplerate = 0 →
      (run_decoders specs samplerate ot filt outcome).1.filter isMetaOrRun
        = [Event.runFirst 0]) := by
  have hn : specs.length ≠ 0 := by omega
  have hwire : (wireEvents specs ot filt).filter isMetaOrRun = [] := by
    rw [wireEvents]
    exact wireRev_filter_eq_nil (fun _ => rfl) (fun _ => rfl) (fun _ _ _ => rfl)
      (fun _ _ _ _ => rfl) specs.reverse _ _ _ _
  have hresets : ((List.range specs.length).map Event.reset).filter isMetaOrRun = [] :=
    filter_map_eq_nil (fun _ => rfl) _
  have hstarts : ((List.range specs.length).map Event.start).filter isMetaOrRun = [] :=
    filter_map_eq_nil (fun _ => rfl) _
  have hstops : ((List.range specs.length).map Event.stop).filter isMetaOrRun = [] :=
    filter_map_eq_nil (fun _ => rfl) _
  constructor
  · intro hsr
    unfold run_decoders
    cases hr : Decoder.run outcome <;>
      simp [hr, hsr, hn, List.filter_append, List.filter_cons, hwire, hresets,
        hstarts, hstops, isMetaOrRun]
  · intro hsr
    subst hsr
    unfold run_decoders
    cases hr : Decoder.run outcome <;>
      simp [hr, hn, List.filter_append, List.filter_cons, hwire, hresets,
        hstarts, hstops, isMetaOrRun]

/-- C9 witness: the metadata behavior instantiated on the concrete
two-decoder pipeline, with a positive rate (7) and with rate zero. -/
theorem run_decoders_metadata_delivery_witness :
    0 < c1Specs.length
    ∧ (run_decoders c1Specs 7 OutputType.ANN none DecodeOutcome.endOfStream).1.filter isMetaOrRun
      = [Event.metadata 0 7, Event.runFirst 0]
    ∧ (run_decoders c1Specs 0 OutputType.ANN none DecodeOutcome.endOfStream).1.filter isMetaOrRun
      = [Event.runFirst 0] :=
  ⟨by decide,
    (run_decoders_metadata_delivery c1Specs 7 OutputType.ANN none
      DecodeOutcome.endOfStream (by decide)).1 (by decide),
    (run_decoders_metadata_delivery c1Specs 0 OutputType.ANN none
      DecodeOutcome.endOfStream (by decide)).2 rfl⟩
